import Mathlib

/-!
Shallow embedding of `src/manim/mobject/number_line.py` (class `NumberLine`).

Machine floats are idealised as exact rationals (`ℚ`) for the tick-range
algebra and as reals (`ℝ`) for the scene geometry; the float literal
`1e-6` used by the source becomes the exact rational `1/1000000`.
-/

/-- The `1e-6` slack literal appearing in `NumberLine.get_tick_range`. -/
def tickEps : ℚ := 1/1000000

/-- Number of elements of `np.arange(s, t, st)`: `ceil((t - s) / st)`,
clamped at zero (numpy raises on `st = 0`; callers guard that case). -/
def arangeCount (s t st : ℚ) : ℕ := (⌈(t - s)/st⌉).toNat

/-- `np.arange(s, t, st)`: the k-th element is computed as `s + k * st`
(multiplication, not repeated addition), for `k < arangeCount s t st`. -/
def arange (s t st : ℚ) : List ℚ :=
  (List.range (arangeCount s t st)).map (fun (k : ℕ) => s + (k : ℚ) * st)

/-- `np.unique`: sort ascending and drop exact duplicates. -/
def npUnique (l : List ℚ) : List ℚ := (l.insertionSort (· ≤ ·)).dedup

/-- The construction parameters of `NumberLine.__init__` that the tick and
label machinery reads (`x_range` split into its three components). -/
structure NLConfig where
  x_min : ℚ
  x_max : ℚ
  x_step : ℚ
  include_ticks : Bool
  include_tip : Bool
  exclude_origin_tick : Bool
  include_numbers : Bool
  numbers_to_include : Option (List ℚ)
  numbers_to_exclude : List ℚ
  label_direction : ℚ × ℚ × ℚ

/-- The local `x_max` computed at the top of `get_tick_range`:
exact `self.x_max` when a tip is present, else `self.x_max + 1e-6`. -/
def effUB (c : NLConfig) : ℚ := if c.include_tip then c.x_max else c.x_max + tickEps

/-- `NumberLine.get_tick_range`.  Returns `none` when `np.arange` would
raise (`x_step = 0`), otherwise the list of tick numbers. -/
def get_tick_range (c : NLConfig) : Option (List ℚ) :=
  if c.x_step = 0 then none
  else if (c.x_min < effUB c ∧ effUB c < 0) ∨ (c.x_max > c.x_min ∧ c.x_min > 0) then
    some (arange c.x_min (effUB c) c.x_step)
  else
    some (npUnique
      (((arange (if c.exclude_origin_tick then 0 + c.x_step else 0)
          (|c.x_min| + tickEps) c.x_step).map (fun v => v * (-1)))
        ++ arange (if c.exclude_origin_tick then 0 + c.x_step else 0) (effUB c) c.x_step))

/-- Observable outcome of a completed `NumberLine.__init__`: the stored
range, the tick numbers added by `add_ticks` (if requested) and the label
values added by `add_numbers` (if requested). -/
structure NLState where
  x_min : ℚ
  x_max : ℚ
  x_step : ℚ
  ticks : Option (List ℚ)
  numbers : Option (List ℚ)

/-- `NumberLine.__init__` as a fallible computation.  `none` models an
exception escaping the constructor: `np.arange` with a zero step, or the
`ZeroDivisionError` in `number_to_point` (division by `x_max - x_min`)
which is reached as soon as `add_ticks` or `add_numbers` places at least
one tick or label on a degenerate interval.  The source performs no
explicit argument validation. -/
def numberLineInit (c : NLConfig) : Option NLState :=
  let ticksRes : Option (Option (List ℚ)) :=
    if c.include_ticks then
      match get_tick_range c with
      | none => none
      | some r => if r ≠ [] ∧ c.x_max = c.x_min then none else some (some r)
    else some none
  match ticksRes with
  | none => none
  | some ticks =>
    if c.include_numbers ∨ c.numbers_to_include.isSome then
      match (match c.numbers_to_include with
             | some l => some l
             | none => get_tick_range c) with
      | none => none
      | some xs =>
        let labels := xs.filter (fun x => decide (x ∉ c.numbers_to_exclude))
        if labels ≠ [] ∧ c.x_max = c.x_min then none
        else some ⟨c.x_min, c.x_max, c.x_step, ticks, some labels⟩
    else some ⟨c.x_min, c.x_max, c.x_step, ticks, none⟩

/-- Replace only the `exclude_origin_tick` flag of a configuration. -/
def setExcludeOrigin (c : NLConfig) (b : Bool) : NLConfig :=
  ⟨c.x_min, c.x_max, c.x_step, c.include_ticks, c.include_tip, b,
   c.include_numbers, c.numbers_to_include, c.numbers_to_exclude, c.label_direction⟩

/-- The sign-correction translation applied by `NumberLine.get_number_mobject`
after `next_to`: the source tests `x < 0 and self.label_direction[0] == 0`
(the configured `label_direction`, not the `direction` argument, whose
defaulted value `_dir` only feeds `next_to`) and, when the test holds,
shifts by `num_mob[0].get_width() * LEFT / 2` with `LEFT = (-1, 0, 0)`. -/
def get_number_mobject_shift (c : NLConfig) (x : ℚ) (direction : Option (ℚ × ℚ × ℚ))
    (firstGlyphWidth : ℚ) : ℚ × ℚ × ℚ :=
  let _dir := direction.getD c.label_direction
  if x < 0 ∧ c.label_direction.1 = 0 then (firstGlyphWidth * (-1) / 2, 0, 0)
  else (0, 0, 0)

/-- Modelled from the spec: on a straddling interval the tick range is the
sorted, deduplicated union of two progressions anchored at `start` (which
is `0`, or `step` when the origin tick is excluded): a negative-going one
down to `-(|x_min| + eps)` and a positive-going one up to the effective
upper bound. -/
def specProgressionTicks (c : NLConfig) (start : ℚ) : List ℚ :=
  npUnique
    (((List.range (arangeCount start (|c.x_min| + tickEps) c.x_step)).map
        (fun (k : ℕ) => -(start + (k : ℚ) * c.x_step)))
      ++ ((List.range (arangeCount start (effUB c) c.x_step)).map
        (fun (k : ℕ) => start + (k : ℚ) * c.x_step)))

/-- Modelled from the spec: on a same-sign interval the tick range is the
sequence `x_min, x_min + step, x_min + 2*step, ...` up to the effective
upper bound, each element obtained as `x_min + k * step`. -/
def specSameSignTicks (c : NLConfig) : List ℚ :=
  (List.range (arangeCount c.x_min (effUB c) c.x_step)).map
    (fun (k : ℕ) => c.x_min + (k : ℚ) * c.x_step)

/- Concrete configurations used in the claim instances.  Field order:
x_min, x_max, x_step, include_ticks, include_tip, exclude_origin_tick,
include_numbers, numbers_to_include, numbers_to_exclude, label_direction
(the label direction defaults to DOWN = (0, -1, 0) in the source). -/

/-- `x_range=[-10,10,2]` with all other arguments at their defaults. -/
def cfgC3 : NLConfig := ⟨-10, 10, 2, true, false, false, false, none, [], (0, -1, 0)⟩

/-- `x_range=[0,10,3]` with `include_tip=True`. -/
def cfgC4 : NLConfig := ⟨0, 10, 3, true, true, false, false, none, [], (0, -1, 0)⟩

/-- `x_range=[-5,0,1]` with `include_tip=True`. -/
def cfgC4cex : NLConfig := ⟨-5, 0, 1, true, true, false, false, none, [], (0, -1, 0)⟩

/-- `x_range=[-4,4,2]` with `exclude_origin_tick=True`. -/
def cfgC5 : NLConfig := ⟨-4, 4, 2, true, false, true, false, none, [], (0, -1, 0)⟩

/-- `x_range=[2,10,2]` with all other arguments at their defaults. -/
def cfgC6 : NLConfig := ⟨2, 10, 2, true, false, false, false, none, [], (0, -1, 0)⟩

/-- `x_range=[-5/2,-1/2000000,1]`: a strictly negative interval whose upper
bound lies within `1e-6` of zero. -/
def cfgC6cex : NLConfig := ⟨-5/2, -1/2000000, 1, true, false, false, false, none, [], (0, -1, 0)⟩

/-- `x_range=[5e-7,1e-6,5e-7]`: a step smaller than the `1e-6` slack. -/
def cfgC8cex : NLConfig :=
  ⟨1/2000000, 1/1000000, 1/2000000, true, false, false, false, none, [], (0, -1, 0)⟩

/-- `x_range=[2,10,-2]`: a negative step, all other arguments default. -/
def cfgC1cex : NLConfig := ⟨2, 10, -2, true, false, false, false, none, [], (0, -1, 0)⟩

/-- `x_range=[5,5,1]`: a degenerate interval, all other arguments default. -/
def cfgC1wit : NLConfig := ⟨5, 5, 1, true, false, false, false, none, [], (0, -1, 0)⟩

/-- A configuration whose `label_direction` is RIGHT = (1, 0, 0). -/
def cfgC7cex : NLConfig := ⟨-10, 10, 2, true, false, false, false, none, [], (1, 0, 0)⟩

/-- `numbers_to_include=[1,2,3]`, `numbers_to_exclude=[2]`,
`include_numbers=False`. -/
def cfgC10 : NLConfig := ⟨0, 5, 1, true, false, false, false, some [1, 2, 3], [2], (0, -1, 0)⟩

/- Scene-space geometry layer (`ℝ`), for the coordinate transforms. -/

noncomputable section

abbrev Vec3 := ℝ × ℝ × ℝ

def vadd (a b : Vec3) : Vec3 := (a.1 + b.1, a.2.1 + b.2.1, a.2.2 + b.2.2)

def vsub (a b : Vec3) : Vec3 := (a.1 - b.1, a.2.1 - b.2.1, a.2.2 - b.2.2)

def vsmul (r : ℝ) (v : Vec3) : Vec3 := (r * v.1, r * v.2.1, r * v.2.2)

def vdot (a b : Vec3) : ℝ := a.1 * b.1 + a.2.1 * b.2.1 + a.2.2 * b.2.2

def vnorm (v : Vec3) : ℝ := Real.sqrt (vdot v v)

/-- `manim.utils.space_ops.normalize`: `vect / norm` when the norm is
positive, otherwise the zero vector. -/
def vnormalize (v : Vec3) : Vec3 :=
  if 0 < vnorm v then vsmul (1 / vnorm v) v else (0, 0, 0)

/-- `manim.utils.simple_functions.fdiv` (`np.true_divide`). -/
def fdiv (a b : ℝ) : ℝ := a / b

/-- `manim.utils.bezier.interpolate` on points. -/
def interpolateV (s e : Vec3) (alpha : ℝ) : Vec3 :=
  vadd (vsmul (1 - alpha) s) (vsmul alpha e)

/-- `manim.utils.bezier.interpolate` on scalars. -/
def interpolateR (a b alpha : ℝ) : ℝ := (1 - alpha) * a + alpha * b

/-- The geometric state a `NumberLine` exposes to its transforms: the
numeric bounds and the current endpoints (`get_start` / `get_end`). -/
structure LineGeom where
  x_min : ℝ
  x_max : ℝ
  startP : Vec3
  endP : Vec3

/-- `NumberLine.number_to_point`: `alpha = (number - x_min) / (x_max - x_min)`,
then interpolate between the current endpoints. -/
def number_to_point (g : LineGeom) (number : ℝ) : Vec3 :=
  interpolateV g.startP g.endP ((number - g.x_min) / (g.x_max - g.x_min))

/-- `NumberLine.point_to_number`: project onto the unit direction of the
segment, divide by the projection of the full segment, and interpolate the
resulting proportion back through `x_min..x_max`. -/
def point_to_number (g : LineGeom) (point : Vec3) : ℝ :=
  let unit_vect := vnormalize (vsub g.endP g.startP)
  let proportion := fdiv (vdot (vsub point g.startP) unit_vect)
    (vdot (vsub g.endP g.startP) unit_vect)
  interpolateR g.x_min g.x_max proportion

/-- Turning a vector by an angle about the scene's OUT axis. -/
def rotZ (theta : ℝ) (v : Vec3) : Vec3 :=
  (Real.cos theta * v.1 - Real.sin theta * v.2.1,
   Real.sin theta * v.1 + Real.cos theta * v.2.1,
   v.2.2)

/-- The endpoints `__init__` produces: the segment from `x_min * RIGHT` to
`x_max * RIGHT` scaled by `unit_size` (or by `length / width`, which is the
same family), centered at the origin, then turned by the configured angle
about its center. -/
def constructedLine (x_min x_max unit_size theta : ℝ) : LineGeom :=
  let h := unit_size * (x_max - x_min) / 2
  ⟨x_min, x_max, rotZ theta (-h, 0, 0), rotZ theta (h, 0, 0)⟩

end

/- Helper lemmas about the embedded numpy primitives. -/

theorem arangeCount_eq (s t st : ℚ) (n : ℕ) (h1 : (n:ℚ) - 1 < (t - s)/st)
    (h2 : (t - s)/st ≤ (n:ℚ)) : arangeCount s t st = n := by
  unfold arangeCount
  have hc : ⌈(t - s)/st⌉ = (n:ℤ) := by
    rw [Int.ceil_eq_iff]
    constructor
    · push_cast
      exact h1
    · push_cast
      exact h2
  rw [hc]
  simp

theorem arangeCount_eq_zero (s t st : ℚ) (h : (t - s)/st ≤ 0) : arangeCount s t st = 0 := by
  unfold arangeCount
  have hc : ⌈(t - s)/st⌉ ≤ 0 := Int.ceil_le.mpr (by exact_mod_cast h)
  exact Int.toNat_of_nonpos hc

theorem arangeCount_pos (s t st : ℚ) (h : 0 < (t - s)/st) : 0 < arangeCount s t st := by
  unfold arangeCount
  have hc : (0:ℤ) < ⌈(t - s)/st⌉ := Int.ceil_pos.mpr h
  omega

theorem mem_arange {s t st x : ℚ} :
    x ∈ arange s t st ↔ ∃ k : ℕ, k < arangeCount s t st ∧ s + k * st = x := by
  simp [arange]

theorem arange_lt_of_mem {s t st x : ℚ} (hst : 0 < st) (hx : x ∈ arange s t st) : x < t := by
  obtain ⟨k, hk, hkeq⟩ := mem_arange.mp hx
  have hkc : (k:ℤ) < ⌈(t - s)/st⌉ := by
    unfold arangeCount at hk
    omega
  have hq : (k:ℚ) < (t - s)/st := by exact_mod_cast Int.lt_ceil.mp hkc
  have := (lt_div_iff₀ hst).mp hq
  linarith [hkeq]

theorem arange_ge_of_mem {s t st x : ℚ} (hst : 0 < st) (hx : x ∈ arange s t st) : s ≤ x := by
  obtain ⟨k, _, hkeq⟩ := mem_arange.mp hx
  have hkst : 0 ≤ (k:ℚ) * st := mul_nonneg (Nat.cast_nonneg k) (le_of_lt hst)
  linarith [hkeq]

theorem arange_pairwise (s t st : ℚ) (hst : 0 < st) : (arange s t st).Pairwise (· < ·) := by
  unfold arange
  refine List.Pairwise.map _ (fun a b hab => ?_) (List.pairwise_lt_range _)
  have hcast : (a:ℚ) < b := by exact_mod_cast hab
  have := mul_lt_mul_of_pos_right hcast hst
  linarith

theorem arange_eq_nil_of_neg (s t st : ℚ) (hst : st < 0) (hts : s < t) : arange s t st = [] := by
  unfold arange
  rw [arangeCount_eq_zero]
  · rfl
  · have hinv : st⁻¹ < 0 := inv_lt_zero.mpr hst
    rw [div_eq_mul_inv]
    nlinarith

theorem arange_ne_nil (s t st : ℚ) (h : 0 < (t - s)/st) : arange s t st ≠ [] := by
  unfold arange
  have hpos := arangeCount_pos s t st h
  simp only [ne_eq, List.map_eq_nil_iff, List.range_eq_nil]
  omega

theorem npUnique_pairwise (l : List ℚ) : (npUnique l).Pairwise (· < ·) := by
  have hs := List.sorted_insertionSort (α := ℚ) (· ≤ ·) l
  have hsub := List.dedup_sublist (List.insertionSort (· ≤ ·) l)
  have hle : (npUnique l).Pairwise (· ≤ ·) := List.Pairwise.sublist hsub hs
  have hnd : (npUnique l).Nodup := List.nodup_dedup _
  exact (hle.and hnd).imp (fun h => lt_of_le_of_ne h.1 h.2)

theorem npUnique_mem (x : ℚ) (l : List ℚ) : x ∈ npUnique l ↔ x ∈ l := by
  unfold npUnique
  rw [List.mem_dedup]
  exact (List.perm_insertionSort _ l).mem_iff

/-- On the straddling branch, `get_tick_range` returns exactly the
spec-described union of the two `start`-anchored progressions, where
`start` is `0` or (origin excluded) `0 + step`. -/
theorem get_tick_range_straddle (c : NLConfig) (hstep : c.x_step ≠ 0)
    (hbranch : ¬((c.x_min < effUB c ∧ effUB c < 0) ∨ (c.x_max > c.x_min ∧ c.x_min > 0))) :
    get_tick_range c
      = some (specProgressionTicks c (if c.exclude_origin_tick then 0 + c.x_step else 0)) := by
  have hneg : ∀ s b : ℚ, (arange s b c.x_step).map (fun v => v * (-1))
      = (List.range (arangeCount s b c.x_step)).map
        (fun (k : ℕ) => -(s + (k : ℚ) * c.x_step)) := by
    intro s b
    unfold arange
    rw [List.map_map]
    congr 1
    funext k
    simp only [Function.comp_apply]
    ring
  unfold get_tick_range specProgressionTicks
  rw [if_neg hstep, if_neg hbranch, hneg]
  rfl

/- Helper lemmas about the geometric layer. -/

theorem vdot_smul_left (r : ℝ) (a b : Vec3) : vdot (vsmul r a) b = r * vdot a b := by
  simp [vdot, vsmul]
  ring

theorem vdot_smul_right (r : ℝ) (a b : Vec3) : vdot a (vsmul r b) = r * vdot a b := by
  simp [vdot, vsmul]
  ring

/-- Round-trip law for an arbitrary nondegenerate geometric state. -/
theorem point_to_number_of_number_to_point (g : LineGeom) (hx : g.x_min ≠ g.x_max)
    (hv : 0 < vdot (vsub g.endP g.startP) (vsub g.endP g.startP)) (x : ℝ) :
    point_to_number g (number_to_point g x) = x := by
  have hn : 0 < vnorm (vsub g.endP g.startP) := Real.sqrt_pos.mpr hv
  have hps : vsub (number_to_point g x) g.startP
      = vsmul ((x - g.x_min) / (g.x_max - g.x_min)) (vsub g.endP g.startP) := by
    simp [number_to_point, interpolateV, vsub, vadd, vsmul, Prod.ext_iff]
    refine ⟨by ring, by ring, by ring⟩
  simp only [point_to_number]
  rw [hps, vnormalize, if_pos hn, vdot_smul_left, vdot_smul_right]
  have hdne : (1 / vnorm (vsub g.endP g.startP)) * vdot (vsub g.endP g.startP) (vsub g.endP g.startP) ≠ 0 :=
    ne_of_gt (mul_pos (by positivity) hv)
  unfold fdiv
  rw [mul_div_cancel_right₀ _ hdne]
  unfold interpolateR
  have hw : g.x_max - g.x_min ≠ 0 := sub_ne_zero.mpr (Ne.symm hx)
  field_simp
  ring

/- Evaluation scaffolding for concrete configurations. -/

theorem arange_eval (s t st : ℚ) (n : ℕ) (L : List ℚ)
    (hn : arangeCount s t st = n)
    (hL : (List.range n).map (fun (k : ℕ) => s + (k : ℚ) * st) = L) :
    arange s t st = L := by
  unfold arange
  rw [hn, hL]

theorem get_tick_range_eval_samesign (c : NLConfig) (L : List ℚ)
    (hstep : ¬(c.x_step = 0))
    (hbr : (c.x_min < effUB c ∧ effUB c < 0) ∨ (c.x_max > c.x_min ∧ c.x_min > 0))
    (hL : arange c.x_min (effUB c) c.x_step = L) :
    get_tick_range c = some L := by
  unfold get_tick_range
  rw [if_neg hstep, if_pos hbr, hL]

theorem get_tick_range_eval_straddle (c : NLConfig) (A B L : List ℚ)
    (hstep : ¬(c.x_step = 0))
    (hbr : ¬((c.x_min < effUB c ∧ effUB c < 0) ∨ (c.x_max > c.x_min ∧ c.x_min > 0)))
    (hA : arange (if c.exclude_origin_tick then 0 + c.x_step else 0)
      (|c.x_min| + tickEps) c.x_step = A)
    (hB : arange (if c.exclude_origin_tick then 0 + c.x_step else 0) (effUB c) c.x_step = B)
    (hU : npUnique (A.map (fun v => v * (-1)) ++ B) = L) :
    get_tick_range c = some L := by
  unfold get_tick_range
  rw [if_neg hstep, if_neg hbr, hA, hB, hU]

theorem tick_range_cfgC3 :
    get_tick_range cfgC3 = some [-10, -8, -6, -4, -2, 0, 2, 4, 6, 8, 10] := by
  apply get_tick_range_eval_straddle cfgC3 [0, 2, 4, 6, 8, 10] [0, 2, 4, 6, 8, 10]
  · norm_num [cfgC3]
  · norm_num [cfgC3, effUB, tickEps]
  · apply arange_eval _ _ _ 6
    · apply arangeCount_eq
      · norm_num [cfgC3, tickEps]
      · norm_num [cfgC3, tickEps]
    · simp [List.range_succ]
      norm_num [cfgC3]
  · apply arange_eval _ _ _ 6
    · apply arangeCount_eq
      · norm_num [cfgC3, effUB, tickEps]
      · norm_num [cfgC3, effUB, tickEps]
    · simp [List.range_succ]
      norm_num [cfgC3]
  · norm_num [npUnique, List.insertionSort, List.orderedInsert,
      List.dedup_cons_of_mem, List.dedup_cons_of_not_mem]

theorem tick_range_cfgC4 : get_tick_range cfgC4 = some [0, 3, 6, 9] := by
  apply get_tick_range_eval_straddle cfgC4 [0] [0, 3, 6, 9]
  · norm_num [cfgC4]
  · norm_num [cfgC4, effUB, tickEps]
  · apply arange_eval _ _ _ 1
    · apply arangeCount_eq
      · norm_num [cfgC4, tickEps]
      · norm_num [cfgC4, tickEps]
    · simp [List.range_succ]
      norm_num [cfgC4]
  · apply arange_eval _ _ _ 4
    · apply arangeCount_eq
      · norm_num [cfgC4, effUB, tickEps]
      · norm_num [cfgC4, effUB, tickEps]
    · simp [List.range_succ]
      norm_num [cfgC4]
  · norm_num [npUnique, List.insertionSort, List.orderedInsert,
      List.dedup_cons_of_mem, List.dedup_cons_of_not_mem]

theorem tick_range_cfgC4cex :
    get_tick_range cfgC4cex = some [-5, -4, -3, -2, -1, 0] := by
  apply get_tick_range_eval_straddle cfgC4cex [0, 1, 2, 3, 4, 5] []
  · norm_num [cfgC4cex]
  · norm_num [cfgC4cex, effUB, tickEps]
  · apply arange_eval _ _ _ 6
    · apply arangeCount_eq
      · norm_num [cfgC4cex, tickEps]
      · norm_num [cfgC4cex, tickEps]
    · simp [List.range_succ]
      norm_num [cfgC4cex]
  · apply arange_eval _ _ _ 0
    · apply arangeCount_eq_zero
      norm_num [cfgC4cex, effUB, tickEps]
    · simp
  · norm_num [npUnique, List.insertionSort, List.orderedInsert,
      List.dedup_cons_of_mem, List.dedup_cons_of_not_mem]

theorem tick_range_cfgC5 : get_tick_range cfgC5 = some [-4, -2, 2, 4] := by
  apply get_tick_range_eval_straddle cfgC5 [2, 4] [2, 4]
  · norm_num [cfgC5]
  · norm_num [cfgC5, effUB, tickEps]
  · apply arange_eval _ _ _ 2
    · apply arangeCount_eq
      · norm_num [cfgC5, tickEps]
      · norm_num [cfgC5, tickEps]
    · simp [List.range_succ]
      norm_num [cfgC5]
  · apply arange_eval _ _ _ 2
    · apply arangeCount_eq
      · norm_num [cfgC5, effUB, tickEps]
      · norm_num [cfgC5, effUB, tickEps]
    · simp [List.range_succ]
      norm_num [cfgC5]
  · norm_num [npUnique, List.insertionSort, List.orderedInsert,
      List.dedup_cons_of_mem, List.dedup_cons_of_not_mem]

theorem tick_range_cfgC6 : get_tick_range cfgC6 = some [2, 4, 6, 8, 10] := by
  apply get_tick_range_eval_samesign cfgC6
  · norm_num [cfgC6]
  · norm_num [cfgC6, effUB, tickEps]
  · apply arange_eval _ _ _ 5
    · apply arangeCount_eq
      · norm_num [cfgC6, effUB, tickEps]
      · norm_num [cfgC6, effUB, tickEps]
    · simp [List.range_succ]
      norm_num [cfgC6]

theorem tick_range_cfgC6cex : get_tick_range cfgC6cex = some [-2, -1, 0] := by
  apply get_tick_range_eval_straddle cfgC6cex [0, 1, 2] [0]
  · norm_num [cfgC6cex]
  · norm_num [cfgC6cex, effUB, tickEps]
  · apply arange_eval _ _ _ 3
    · apply arangeCount_eq
      · norm_num [cfgC6cex, tickEps, abs_div]
      · norm_num [cfgC6cex, tickEps, abs_div]
    · simp [List.range_succ]
      norm_num [cfgC6cex]
  · apply arange_eval _ _ _ 1
    · apply arangeCount_eq
      · norm_num [cfgC6cex, effUB, tickEps]
      · norm_num [cfgC6cex, effUB, tickEps]
    · simp [List.range_succ]
      norm_num [cfgC6cex]
  · norm_num [npUnique, List.insertionSort, List.orderedInsert,
      List.dedup_cons_of_mem, List.dedup_cons_of_not_mem]

theorem sameSign_cfgC6cex : specSameSignTicks cfgC6cex = [-5/2, -3/2, -1/2] := by
  unfold specSameSignTicks
  rw [arangeCount_eq _ _ _ 3 (by norm_num [cfgC6cex, effUB, tickEps])
    (by norm_num [cfgC6cex, effUB, tickEps])]
  simp [List.range_succ]
  norm_num [cfgC6cex]

theorem tick_range_cfgC8cex :
    get_tick_range cfgC8cex = some [1/2000000, 1/1000000, 3/2000000] := by
  apply get_tick_range_eval_samesign cfgC8cex
  · norm_num [cfgC8cex]
  · norm_num [cfgC8cex, effUB, tickEps]
  · apply arange_eval _ _ _ 3
    · apply arangeCount_eq
      · norm_num [cfgC8cex, effUB, tickEps]
      · norm_num [cfgC8cex, effUB, tickEps]
    · simp [List.range_succ]
      norm_num [cfgC8cex]

theorem tick_range_cfgC1cex : get_tick_range cfgC1cex = some [] := by
  apply get_tick_range_eval_samesign cfgC1cex
  · norm_num [cfgC1cex]
  · norm_num [cfgC1cex, effUB, tickEps]
  · apply arange_eq_nil_of_neg
    · norm_num [cfgC1cex]
    · norm_num [cfgC1cex, effUB, tickEps]

/- Shared facts about the straddling-branch condition. -/

theorem effUB_ge (c : NLConfig) : c.x_max ≤ effUB c := by
  unfold effUB
  split_ifs
  · exact le_refl _
  · have h : (0:ℚ) < tickEps := by norm_num [tickEps]
    linarith

theorem straddle_branch_not (c : NLConfig) (h1 : c.x_min ≤ 0) (h2 : 0 ≤ c.x_max) :
    ¬((c.x_min < effUB c ∧ effUB c < 0) ∨ (c.x_max > c.x_min ∧ c.x_min > 0)) := by
  have he := effUB_ge c
  rintro (⟨_, hb⟩ | ⟨_, hb⟩)
  · linarith
  · linarith

/-- C3: for every interval spanning or touching zero from both sides (and a
positive step, origin tick not excluded), `get_tick_range` equals the
sorted, zero-deduplicated union of the two zero-anchored progressions; in
particular `x_range=[-10,10,2]` with no tip and no origin exclusion yields
exactly the 11 ticks `-10,-8,...,-2,0,2,...,10`. -/
theorem C3_straddle_union :
    (∀ c : NLConfig, c.x_min ≤ 0 → 0 ≤ c.x_max → 0 < c.x_step →
      c.exclude_origin_tick = false →
      get_tick_range c = some (specProgressionTicks c 0)) ∧
    get_tick_range cfgC3 = some [-10, -8, -6, -4, -2, 0, 2, 4, 6, 8, 10] ∧
    [(-10 : ℚ), -8, -6, -4, -2, 0, 2, 4, 6, 8, 10].length = 11 := by
  refine ⟨?_, tick_range_cfgC3, rfl⟩
  intro c h1 h2 h3 h4
  have hres := get_tick_range_straddle c (ne_of_gt h3) (straddle_branch_not c h1 h2)
  rw [h4] at hres
  simpa using hres

theorem C3_straddle_union_witness :
    get_tick_range cfgC3 = some (specProgressionTicks cfgC3 0) :=
  C3_straddle_union.1 cfgC3 (by norm_num [cfgC3]) (by norm_num [cfgC3])
    (by norm_num [cfgC3]) rfl

/-- C4 (amended): with `include_tip` the effective upper bound is exactly
`x_max` (no epsilon slack), so every generated tick is at most `x_max`, and
strictly below `x_max` whenever `x_max ≠ 0` (when `x_max = 0` the origin
tick itself equals `x_max`); in particular `include_tip=True` with
`x_range=[0,10,3]` yields exactly `{0,3,6,9}`. -/
theorem C4_tip_upper_bound :
    (∀ (c : NLConfig) (l : List ℚ), c.include_tip = true → 0 < c.x_step →
      c.x_min < c.x_max → get_tick_range c = some l →
      ∀ x ∈ l, x ≤ c.x_max ∧ (c.x_max ≠ 0 → x < c.x_max)) ∧
    get_tick_range cfgC4 = some [0, 3, 6, 9] := by
  refine ⟨?_, tick_range_cfgC4⟩
  intro c l htip hst hlt hgtr x hx
  have heff : effUB c = c.x_max := by
    unfold effUB
    rw [htip]
    simp
  unfold get_tick_range at hgtr
  rw [if_neg (ne_of_gt hst)] at hgtr
  by_cases hbr : (c.x_min < effUB c ∧ effUB c < 0) ∨ (c.x_max > c.x_min ∧ c.x_min > 0)
  · rw [if_pos hbr] at hgtr
    have hl := Option.some.inj hgtr
    rw [← hl] at hx
    have hxlt : x < c.x_max := heff ▸ arange_lt_of_mem hst hx
    exact ⟨le_of_lt hxlt, fun _ => hxlt⟩
  · rw [if_neg hbr] at hgtr
    have hxm : (0:ℚ) ≤ c.x_max := by
      by_contra hneg
      push_neg at hneg
      exact hbr (Or.inl ⟨by rw [heff]; exact hlt, by rw [heff]; exact hneg⟩)
    have hl := Option.some.inj hgtr
    rw [← hl] at hx
    rw [npUnique_mem] at hx
    rcases List.mem_append.mp hx with hA | hB
    · obtain ⟨v, hv, hveq⟩ := List.mem_map.mp hA
      have hsp : (0:ℚ) ≤ (if c.exclude_origin_tick then 0 + c.x_step else 0) := by
        split_ifs <;> linarith
      have hvge : (0:ℚ) ≤ v := le_trans hsp (arange_ge_of_mem hst hv)
      constructor
      · rw [← hveq]
        linarith
      · intro hne
        have hpos : (0:ℚ) < c.x_max := lt_of_le_of_ne hxm (Ne.symm hne)
        rw [← hveq]
        linarith
    · have hxlt : x < c.x_max := heff ▸ arange_lt_of_mem hst hB
      exact ⟨le_of_lt hxlt, fun _ => hxlt⟩

/-- C4 counterexample: with `include_tip=True` and `x_range=[-5,0,1]` the
generated range contains the tick `0`, which is not strictly below
`x_max = 0`. -/
theorem C4_counterexample :
    cfgC4cex.include_tip = true ∧
    get_tick_range cfgC4cex = some [-5, -4, -3, -2, -1, 0] ∧
    (0 : ℚ) ∈ [(-5 : ℚ), -4, -3, -2, -1, 0] ∧ ¬((0 : ℚ) < cfgC4cex.x_max) := by
  refine ⟨rfl, tick_range_cfgC4cex, by simp, by norm_num [cfgC4cex]⟩

theorem C4_tip_upper_bound_witness :
    (9 : ℚ) ≤ cfgC4.x_max ∧ (cfgC4.x_max ≠ 0 → (9 : ℚ) < cfgC4.x_max) :=
  C4_tip_upper_bound.1 cfgC4 [0, 3, 6, 9] rfl (by norm_num [cfgC4]) (by norm_num [cfgC4])
    C4_tip_upper_bound.2 9 (by simp)

/-- C5: with `exclude_origin_tick` on a straddling interval both
progressions start at `step` instead of `0`, zero is never contained in
the result, and `x_range=[-4,4,2]` yields exactly `{-4,-2,2,4}`. -/
theorem C5_exclude_origin :
    (∀ c : NLConfig, c.x_min ≤ 0 → 0 ≤ c.x_max → 0 < c.x_step →
      c.exclude_origin_tick = true →
      get_tick_range c = some (specProgressionTicks c (0 + c.x_step)) ∧
      ∀ l, get_tick_range c = some l → (0 : ℚ) ∉ l) ∧
    get_tick_range cfgC5 = some [-4, -2, 2, 4] := by
  refine ⟨?_, tick_range_cfgC5⟩
  intro c h1 h2 h3 h4
  have hres := get_tick_range_straddle c (ne_of_gt h3) (straddle_branch_not c h1 h2)
  rw [h4] at hres
  have hres2 : get_tick_range c = some (specProgressionTicks c (0 + c.x_step)) := by
    simpa using hres
  refine ⟨hres2, ?_⟩
  intro l hl h0
  rw [hres2] at hl
  rw [← Option.some.inj hl] at h0
  unfold specProgressionTicks at h0
  rw [npUnique_mem] at h0
  rcases List.mem_append.mp h0 with hA | hB
  · obtain ⟨k, _, hkeq⟩ := List.mem_map.mp hA
    have hge : (0:ℚ) ≤ (k:ℚ) * c.x_step := mul_nonneg (Nat.cast_nonneg k) (le_of_lt h3)
    linarith [hkeq]
  · obtain ⟨k, _, hkeq⟩ := List.mem_map.mp hB
    have hge : (0:ℚ) ≤ (k:ℚ) * c.x_step := mul_nonneg (Nat.cast_nonneg k) (le_of_lt h3)
    linarith [hkeq]

theorem C5_exclude_origin_witness :
    get_tick_range cfgC5 = some (specProgressionTicks cfgC5 (0 + cfgC5.x_step)) ∧
    (0 : ℚ) ∉ [(-4 : ℚ), -2, 2, 4] := by
  have h := C5_exclude_origin.1 cfgC5 (by norm_num [cfgC5]) (by norm_num [cfgC5])
    (by norm_num [cfgC5]) rfl
  exact ⟨h.1, h.2 [-4, -2, 2, 4] C5_exclude_origin.2⟩

/-- C6 (amended): `get_tick_range` is the `x_min`-anchored sequence
`x_min + k*step` exactly when the code's same-sign test holds, which
compares the epsilon-adjusted effective upper bound (not `x_max` itself)
with zero; `x_range=[2,10,2]` yields exactly `{2,4,6,8,10}`. -/
theorem C6_same_sign :
    (∀ c : NLConfig, ¬(c.x_step = 0) →
      ((c.x_min < effUB c ∧ effUB c < 0) ∨ (c.x_max > c.x_min ∧ c.x_min > 0)) →
      get_tick_range c = some (specSameSignTicks c)) ∧
    get_tick_range cfgC6 = some [2, 4, 6, 8, 10] := by
  refine ⟨?_, tick_range_cfgC6⟩
  intro c hstep hbr
  unfold get_tick_range
  rw [if_neg hstep, if_pos hbr]
  rfl

/-- C6 counterexample: the strictly negative interval
`x_range=[-5/2,-1/2000000,1]` (no tip) does not produce the
`x_min`-anchored sequence `{-5/2,-3/2,-1/2}` the claim requires; the code
takes the zero-anchored straddling branch and returns `{-2,-1,0}`. -/
theorem C6_counterexample :
    (cfgC6cex.x_min < cfgC6cex.x_max ∧ cfgC6cex.x_max < 0) ∧
    get_tick_range cfgC6cex = some [-2, -1, 0] ∧
    specSameSignTicks cfgC6cex = [-5/2, -3/2, -1/2] ∧
    [(-2 : ℚ), -1, 0] ≠ [(-5/2 : ℚ), -3/2, -1/2] := by
  refine ⟨⟨by norm_num [cfgC6cex], by norm_num [cfgC6cex]⟩, tick_range_cfgC6cex,
    sameSign_cfgC6cex, by norm_num⟩

theorem C6_same_sign_witness : get_tick_range cfgC6 = some (specSameSignTicks cfgC6) :=
  C6_same_sign.1 cfgC6 (by norm_num [cfgC6]) (by norm_num [cfgC6, effUB, tickEps])

/-- C8 (amended): deduplication in `get_tick_range` is exact (`np.unique`),
so the returned sequence is strictly increasing with no exact duplicates;
it is not epsilon-tolerant (see the counterexample for two distinct ticks
closer than `1e-6`). -/
theorem C8_strict_sorted (c : NLConfig) (l : List ℚ) (h : get_tick_range c = some l) :
    l.Pairwise (· < ·) := by
  unfold get_tick_range at h
  by_cases hstep : c.x_step = 0
  · rw [if_pos hstep] at h
    exact absurd h (by simp)
  · rw [if_neg hstep] at h
    by_cases hbr : (c.x_min < effUB c ∧ effUB c < 0) ∨ (c.x_max > c.x_min ∧ c.x_min > 0)
    · rw [if_pos hbr] at h
      rw [← Option.some.inj h]
      rcases lt_trichotomy c.x_step 0 with hneg | hzero | hpos
      · have hts : c.x_min < effUB c := by
          rcases hbr with ⟨ha, _⟩ | ⟨ha, _⟩
          · exact ha
          · have := effUB_ge c
            linarith
        rw [arange_eq_nil_of_neg _ _ _ hneg hts]
        exact List.Pairwise.nil
      · exact absurd hzero hstep
      · exact arange_pairwise _ _ _ hpos
    · rw [if_neg hbr] at h
      rw [← Option.some.inj h]
      exact npUnique_pairwise _

/-- C8 counterexample: with `x_range=[5e-7,1e-6,5e-7]` the generated range
contains the two distinct ticks `5e-7` and `1e-6` whose difference `5e-7`
is smaller than the `1e-6` bound-check epsilon. -/
theorem C8_counterexample :
    get_tick_range cfgC8cex = some [1/2000000, 1/1000000, 3/2000000] ∧
    (1/2000000 : ℚ) ≠ 1/1000000 ∧
    |(1/1000000 : ℚ) - 1/2000000| < tickEps := by
  refine ⟨tick_range_cfgC8cex, by norm_num, ?_⟩
  have h : |(1/1000000 : ℚ) - 1/2000000| = 1/2000000 := by
    rw [abs_of_pos] <;> norm_num
  rw [h]
  norm_num [tickEps]

theorem C8_strict_sorted_witness : ([2, 4, 6, 8, 10] : List ℚ).Pairwise (· < ·) :=
  C8_strict_sorted cfgC6 [2, 4, 6, 8, 10] tick_range_cfgC6

/-- C9: for every interval on one strict side of zero (in the sense of the
code's epsilon-adjusted branch test), flipping `exclude_origin_tick` does
not change `get_tick_range` at all. -/
theorem C9_exclude_origin_irrelevant (c : NLConfig)
    (hbr : (c.x_min < effUB c ∧ effUB c < 0) ∨ (c.x_max > c.x_min ∧ c.x_min > 0)) :
    get_tick_range (setExcludeOrigin c true) = get_tick_range (setExcludeOrigin c false) := by
  unfold effUB at hbr
  simp only [get_tick_range, setExcludeOrigin, effUB]
  by_cases hstep : c.x_step = 0
  · rw [if_pos hstep, if_pos hstep]
  · rw [if_neg hstep, if_neg hstep, if_pos hbr, if_pos hbr]

theorem C9_exclude_origin_irrelevant_witness :
    get_tick_range (setExcludeOrigin cfgC6 true)
      = get_tick_range (setExcludeOrigin cfgC6 false) :=
  C9_exclude_origin_irrelevant cfgC6 (by norm_num [cfgC6, effUB, tickEps])

/-- C1 counterexample: `x_range=[2,10,-2]` has a non-positive step, yet
`__init__` raises nothing and produces an instance (the tick range is
simply empty), refuting the fail-fast claim. -/
theorem C1_counterexample :
    cfgC1cex.x_step ≤ 0 ∧ numberLineInit cfgC1cex = some ⟨2, 10, -2, some [], none⟩ := by
  refine ⟨by norm_num [cfgC1cex], ?_⟩
  unfold numberLineInit
  rw [tick_range_cfgC1cex]
  simp [cfgC1cex]

/-- C1 (amended): `__init__` performs no explicit validation.  Under the
default configuration (`include_ticks=True`, `exclude_origin_tick=False`)
and a positive step, a degenerate interval (`x_max = x_min`) does make
`__init__` raise (division by zero in `number_to_point` while placing the
first tick) and no instance is produced; a non-positive step, however,
does not raise (see the counterexample). -/
theorem C1_degenerate_raises (c : NLConfig) (hdeg : c.x_max = c.x_min) (hstep : 0 < c.x_step)
    (hticks : c.include_ticks = true) (hexcl : c.exclude_origin_tick = false) :
    numberLineInit c = none := by
  have hr : ∃ r, get_tick_range c = some r ∧ r ≠ [] := by
    unfold get_tick_range
    rw [if_neg (ne_of_gt hstep)]
    by_cases hbr : (c.x_min < effUB c ∧ effUB c < 0) ∨ (c.x_max > c.x_min ∧ c.x_min > 0)
    · rw [if_pos hbr]
      refine ⟨_, rfl, arange_ne_nil _ _ _ ?_⟩
      have hm : c.x_min < effUB c := by
        rcases hbr with ⟨ha, _⟩ | ⟨ha, _⟩
        · exact ha
        · rw [hdeg] at ha
          exact absurd ha (lt_irrefl _)
      exact div_pos (by linarith) hstep
    · rw [if_neg hbr]
      refine ⟨_, rfl, ?_⟩
      have hsp : (if c.exclude_origin_tick then 0 + c.x_step else 0) = 0 := by
        rw [hexcl]
        simp
      rw [hsp]
      apply List.ne_nil_of_mem (a := (0:ℚ))
      rw [npUnique_mem]
      apply List.mem_append_left
      apply List.mem_map.mpr
      refine ⟨0, ?_, by norm_num⟩
      apply mem_arange.mpr
      refine ⟨0, ?_, by norm_num⟩
      apply arangeCount_pos
      apply div_pos ?_ hstep
      have habs : (0:ℚ) ≤ |c.x_min| := abs_nonneg _
      have hteps : (0:ℚ) < tickEps := by norm_num [tickEps]
      linarith
  obtain ⟨r, hgtr, hne⟩ := hr
  unfold numberLineInit
  rw [hticks, hgtr]
  simp [hne, hdeg]

theorem C1_degenerate_raises_witness : numberLineInit cfgC1wit = none :=
  C1_degenerate_raises cfgC1wit rfl (by norm_num [cfgC1wit]) rfl rfl

/-- C10: passing a non-None `numbers_to_include` makes `__init__` attach
number labels even with `include_numbers=False`, and the labeled values
are exactly the members of `numbers_to_include` not excluded by
`numbers_to_exclude` (no fallback to the generated tick range). -/
theorem C10_numbers_to_include (c : NLConfig) (l : List ℚ)
    (hinc : c.numbers_to_include = some l) (hnum : c.include_numbers = false)
    (hdeg : ¬(c.x_max = c.x_min)) (hstep : ¬(c.x_step = 0)) :
    ∃ st : NLState, numberLineInit c = some st ∧
      st.numbers = some (l.filter (fun x => decide (x ∉ c.numbers_to_exclude))) := by
  obtain ⟨r, hr⟩ : ∃ r, get_tick_range c = some r := by
    unfold get_tick_range
    rw [if_neg hstep]
    split_ifs <;> exact ⟨_, rfl⟩
  unfold numberLineInit
  rw [hinc, hnum, hr]
  by_cases hti : c.include_ticks = true
  · rw [hti]
    simp [hdeg]
  · have h2 : c.include_ticks = false := by
      rcases Bool.dichotomy c.include_ticks with h | h
      · exact h
      · exact absurd h hti
    rw [h2]
    simp [hdeg]

theorem C10_numbers_to_include_witness :
    ∃ st : NLState, numberLineInit cfgC10 = some st ∧
      st.numbers = some ([1, 2, 3].filter (fun x => decide (x ∉ cfgC10.numbers_to_exclude))) :=
  C10_numbers_to_include cfgC10 [1, 2, 3] rfl rfl (by norm_num [cfgC10])
    (by norm_num [cfgC10])

/-- C7 counterexample: with the configured `label_direction = RIGHT` and a
purely vertical `direction` argument, the label for `x = -3` receives no
shift even though the claim requires one (the source consults
`self.label_direction`, not the passed direction). -/
theorem C7_counterexample :
    ((-3 : ℚ) < 0 ∧ ((0 : ℚ), (-1 : ℚ), (0 : ℚ)).1 = 0) ∧
    get_number_mobject_shift cfgC7cex (-3) (some (0, -1, 0)) 1 = (0, 0, 0) ∧
    ((0 : ℚ), (0 : ℚ), (0 : ℚ)) ≠ ((1 : ℚ) * (-1) / 2, 0, 0) := by
  refine ⟨⟨by norm_num, rfl⟩, ?_, ?_⟩
  · norm_num [get_number_mobject_shift, cfgC7cex]
  · intro h
    have h1 := congrArg Prod.fst h
    norm_num at h1

/-- C7 (amended): the leftward shift by half the leading glyph width is
applied if and only if `x < 0` and the configured `label_direction` has
zero horizontal component (the per-call direction is not consulted); for
the default vertical `label_direction`, `x=-3` is shifted and `x=3` is
not. -/
theorem C7_shift_rule :
    (∀ (c : NLConfig) (x : ℚ) (d : Option (ℚ × ℚ × ℚ)) (w : ℚ), 0 < w →
      ((get_number_mobject_shift c x d w = (w * (-1) / 2, 0, 0)) ↔
        (x < 0 ∧ c.label_direction.1 = 0)) ∧
      (¬(x < 0 ∧ c.label_direction.1 = 0) →
        get_number_mobject_shift c x d w = (0, 0, 0))) ∧
    get_number_mobject_shift cfgC3 (-3) (some (0, -1, 0)) 1 = ((1 : ℚ) * (-1) / 2, 0, 0) ∧
    get_number_mobject_shift cfgC3 3 (some (0, -1, 0)) 1 = (0, 0, 0) := by
  refine ⟨?_, ?_, ?_⟩
  · intro c x d w hw
    simp only [get_number_mobject_shift]
    by_cases h : x < 0 ∧ c.label_direction.1 = 0
    · rw [if_pos h]
      exact ⟨⟨fun _ => h, fun _ => rfl⟩, fun hn => absurd h hn⟩
    · rw [if_neg h]
      refine ⟨⟨fun heq => ?_, fun hh => absurd hh h⟩, fun _ => rfl⟩
      have h1 := congrArg Prod.fst heq
      simp at h1
      linarith
  · norm_num [get_number_mobject_shift, cfgC3]
  · norm_num [get_number_mobject_shift, cfgC3]

theorem C7_shift_rule_witness :
    ((get_number_mobject_shift cfgC3 (-3) (some (0, -1, 0)) 1 = ((1:ℚ) * (-1) / 2, 0, 0)) ↔
      ((-3 : ℚ) < 0 ∧ cfgC3.label_direction.1 = 0)) ∧
    (¬((-3 : ℚ) < 0 ∧ cfgC3.label_direction.1 = 0) →
      get_number_mobject_shift cfgC3 (-3) (some (0, -1, 0)) 1 = (0, 0, 0)) :=
  C7_shift_rule.1 cfgC3 (-3) (some (0, -1, 0)) 1 (by norm_num)

/-- C2: for every line with `x_min < x_max`, any turning angle and any
nonzero unit size (equivalently any configured length), and every number
`x` in `[x_min, x_max]`, `point_to_number (number_to_point x) = x`
exactly (the floating tolerance of the claim becomes exact equality in
the real-number idealisation). -/
theorem C2_roundtrip (x_min x_max unit_size theta x : ℝ) (hlt : x_min < x_max)
    (hu : unit_size ≠ 0) (hx1 : x_min ≤ x) (hx2 : x ≤ x_max) :
    point_to_number (constructedLine x_min x_max unit_size theta)
      (number_to_point (constructedLine x_min x_max unit_size theta) x) = x := by
  apply point_to_number_of_number_to_point
  · exact ne_of_lt hlt
  · have hkey : vdot
        (vsub (constructedLine x_min x_max unit_size theta).endP
          (constructedLine x_min x_max unit_size theta).startP)
        (vsub (constructedLine x_min x_max unit_size theta).endP
          (constructedLine x_min x_max unit_size theta).startP)
        = (unit_size * (x_max - x_min))^2 := by
      simp only [constructedLine, vsub, vdot, rotZ]
      linear_combination (unit_size * (x_max - x_min))^2 * (Real.sin_sq_add_cos_sq theta)
    rw [hkey]
    have hne : unit_size * (x_max - x_min) ≠ 0 :=
      mul_ne_zero hu (ne_of_gt (sub_pos.mpr hlt))
    rcases lt_or_gt_of_ne hne with h | h
    · nlinarith
    · nlinarith

theorem C2_roundtrip_witness :
    point_to_number (constructedLine 0 1 1 0)
      (number_to_point (constructedLine 0 1 1 0) (1/2)) = 1/2 :=
  C2_roundtrip 0 1 1 0 (1/2) (by norm_num) (by norm_num) (by norm_num) (by norm_num)
